import Mathlib

set_option maxRecDepth 20000

/- Shallow embedding of the receipt-scanner repository (src/app/ocr.py and the
record assembly in src/app/main.py).

Modelling conventions:
* Python strings are modelled as `List Char`; theorems use `String.data` to
  supply concrete literals.
* Python floats are modelled as exact rationals.  Every number the heuristics
  handle is a short decimal literal, on which IEEE comparison and exact
  rational comparison agree.
* The five regular expressions of ocr.py are modelled as character-level
  scanners.  Each regex is a concatenation of character classes and literal
  alternations whose classes are pairwise disjoint at every boundary, so the
  greedy backtracking search of Python `re` is deterministic and the
  scanners below implement it exactly; `finditer`/`findall` scan left to
  right and resume after each match, `search` stops at the leftmost match.
* `\d`, `\s`, `[A-Za-z]` are modelled over the ASCII ranges, which is what
  every input appearing in the claims exercises.
-/

abbrev Chars := List Char

/-- The Python `\s` class (ASCII part): space, tab, newline, carriage return,
vertical tab, form feed. -/
def pySpace (c : Char) : Bool :=
  c = ' ' || c = '\t' || c = '\n' || c = '\r' || c = Char.ofNat 11 || c = Char.ofNat 12

/-- The class `[\d.,]` of TOTAL_REGEX / TAX_REGEX group 2. -/
def moneyChar (c : Char) : Bool :=
  c.isDigit || c = '.' || c = ','

/-- The class `[:\s]` separating a label from its number. -/
def sepChar (c : Char) : Bool :=
  c = ':' || pySpace c

/-- ASCII lower-casing, modelling `re.IGNORECASE` on the ASCII labels. -/
def lowerChar (c : Char) : Char :=
  if 'A' ≤ c ∧ c ≤ 'Z' then Char.ofNat (c.toNat + 32) else c

/-- Value of a digit string (most significant first). -/
def digitsVal (s : Chars) : Nat :=
  s.foldl (fun a c => a * 10 + (c.toNat - 48)) 0

/-- Python `float()` restricted to the strings the heuristics feed it: after
comma removal a group-2 capture consists of digits and dots only, and
`float` accepts it exactly when it has at most one dot and at least one
digit (`"5."` and `".5"` parse, `""`, `"."`, `"1.2.3"` raise ValueError). -/
def pyFloat (s : Chars) : Option ℚ :=
  let ip := s.takeWhile Char.isDigit
  match s.dropWhile Char.isDigit with
  | [] => if ip = [] then none else some (digitsVal ip)
  | c :: fp =>
      if c = '.' ∧ fp.all Char.isDigit ∧ (ip ≠ [] ∨ fp ≠ []) then
        some ((digitsVal ip : ℚ) + (digitsVal fp : ℚ) / (10 ^ fp.length : ℚ))
      else none

/-- `x.replace(",", "")` on a captured group. -/
def stripCommas (s : Chars) : Chars := s.filter (fun c => c ≠ ',')

/-- `float(match.group(2).replace(",", ""))`, `none` when Python would raise
`ValueError`. -/
def parseMoney (g : Chars) : Option ℚ := pyFloat (stripCommas g)

/-- Strip a literal pattern (stored lower-case) case-insensitively from the
front of `s`, returning the remainder. -/
def stripCI : Chars → Chars → Option Chars
  | [], r => some r
  | _ :: _, [] => none
  | p :: ps, c :: cs => if lowerChar c = p then stripCI ps cs else none

/-- Strip a literal pattern case-sensitively from the front of `s`. -/
def stripExact : Chars → Chars → Option Chars
  | [], r => some r
  | _ :: _, [] => none
  | p :: ps, c :: cs => if c = p then stripExact ps cs else none

/-- One attempt of `(label1|label2|...)[:\s]*([\d.,]+)` anchored at the start
of `s`: try each label alternative in order; after a label, skip the maximal
`[:\s]*` run and capture the maximal non-empty `[\d.,]+` run.  Returns the
captured group 2 and the remainder of the text after the whole match. -/
def matchLabeledAt (labels : List Chars) (s : Chars) : Option (Chars × Chars) :=
  match labels with
  | [] => none
  | L :: Ls =>
      match stripCI L s with
      | some r1 =>
          let r2 := r1.dropWhile sepChar
          let g := r2.takeWhile moneyChar
          if g = [] then matchLabeledAt Ls s
          else some (g, r2.dropWhile moneyChar)
      | none => matchLabeledAt Ls s

/-- `finditer` for a labelled-amount regex: scan left to right, emit each
match's group 2, resume after the match.  Fuelled by the text length, which
always suffices because every match consumes at least one character. -/
def scanLabeled (labels : List Chars) : Nat → Chars → List Chars
  | 0, _ => []
  | _ + 1, [] => []
  | fuel + 1, c :: cs =>
      match matchLabeledAt labels (c :: cs) with
      | some (g, rest) => g :: scanLabeled labels fuel rest
      | none => scanLabeled labels fuel cs

/-- The alternatives of TOTAL_REGEX, in Python alternation order. -/
def totalLabels : List Chars := ["total".data, "amount due".data, "grand total".data]

/-- The alternatives of TAX_REGEX, in Python alternation order. -/
def taxLabels : List Chars := ["tax".data, "vat".data]

/-- Group-2 captures of `TOTAL_REGEX.finditer(text)`, in document order. -/
def totalMatches (s : Chars) : List Chars := scanLabeled totalLabels s.length s

/-- Group-2 captures of `TAX_REGEX.finditer(text)`, in document order. -/
def taxMatches (s : Chars) : List Chars := scanLabeled taxLabels s.length s

/-- One attempt of `[0-9]+\.[0-9]{2}` anchored at the start of `s`: a maximal
non-empty digit run, a dot, then exactly two digits. -/
def matchNumAt (s : Chars) : Option (Chars × Chars) :=
  let ds := s.takeWhile Char.isDigit
  match s.dropWhile Char.isDigit with
  | c :: d1 :: d2 :: rest =>
      if ds ≠ [] ∧ c = '.' ∧ d1.isDigit ∧ d2.isDigit then
        some (ds ++ c :: d1 :: d2 :: [], rest)
      else none
  | _ => none

/-- `re.findall(r"[0-9]+\.[0-9]{2}", text)` (fuelled like `scanLabeled`). -/
def scanNums : Nat → Chars → List Chars
  | 0, _ => []
  | _ + 1, [] => []
  | fuel + 1, c :: cs =>
      match matchNumAt (c :: cs) with
      | some (g, rest) => g :: scanNums fuel rest
      | none => scanNums fuel cs

/-- The unlabelled decimal numbers of the total fallback, in document order. -/
def fallbackNumbers (s : Chars) : List Chars := scanNums s.length s

/-- `numbers = [float(x.replace(",", "")) for x in re.findall(...)]` of the
total fallback.  The comprehension calls `float` without a try, which cannot
raise here because every findall match has the shape digits-dot-two-digits
(theorem `fallback_parses`); the `getD 0` default is never taken. -/
def fallbackValues (s : Chars) : List ℚ :=
  (fallbackNumbers s).map (fun g => (parseMoney g).getD 0)

/-- The `for match in REGEX.finditer(text): try: acc = float(...) except
ValueError: continue` loop of extract_amounts: keep the last successfully
parsed capture, start from `acc`. -/
def lastParsedAux (acc : Option ℚ) : List Chars → Option ℚ
  | [] => acc
  | g :: gs =>
      match parseMoney g with
      | some v => lastParsedAux (some v) gs
      | none => lastParsedAux acc gs

/-- `extract_amounts` of ocr.py: `(total_amount, tax_amount)`.  The labelled
loops keep the last parseable capture; if no total capture parsed, fall back
to the maximum of all `[0-9]+\.[0-9]{2}` numbers in the text (`max` of the
Python list, here a left fold; findall matches always parse, see
`fallback_parses`). -/
def extract_amounts (s : Chars) : Option ℚ × Option ℚ :=
  let total0 := lastParsedAux none (totalMatches s)
  let tax := lastParsedAux none (taxMatches s)
  let total :=
    match total0 with
    | some v => some v
    | none =>
        match fallbackValues s with
        | [] => none
        | x :: xs => some (xs.foldl max x)
  (total, tax)

/-- Python `str.strip()` (whitespace from both ends). -/
def stripChars (l : Chars) : Chars :=
  ((l.dropWhile pySpace).reverse.dropWhile pySpace).reverse

/-- The qualification test of extract_vendor:
`len(line.strip()) > 2 and not re.search(r"\d", line)`. -/
def vendorQual (l : Chars) : Bool :=
  decide (2 < (stripChars l).length) && ! (l.any Char.isDigit)

/-- The `for line in lines[:5]` loop of extract_vendor: return the stripped
first qualifying line. -/
def vendorLoop : List Chars → Option Chars
  | [] => none
  | l :: ls => if vendorQual l then some (stripChars l) else vendorLoop ls

/-- `extract_vendor` of ocr.py. -/
def extract_vendor (lines : List Chars) : Option Chars :=
  match lines with
  | [] => none
  | l0 :: _ =>
      match vendorLoop (lines.take 5) with
      | some v => some v
      | none => some (stripChars l0)

/-- `re.search`: leftmost position at which `f` matches. -/
def scanFirst {α : Type} (f : Chars → Option α) : Chars → Option α
  | [] => none
  | c :: cs =>
      match f (c :: cs) with
      | some a => some a
      | none => scanFirst f cs

/-- One attempt of `([$€£]|USD|EUR|GBP)` anchored at the start of `s`
(alternatives in Python order, case-sensitive). -/
def matchCurrencyAt (s : Chars) : Option Chars :=
  match s with
  | [] => none
  | c :: _ =>
      if c = '$' ∨ c = '€' ∨ c = '£' then some [c]
      else if (stripExact "USD".data s).isSome then some "USD".data
      else if (stripExact "EUR".data s).isSome then some "EUR".data
      else if (stripExact "GBP".data s).isSome then some "GBP".data
      else none

/-- `{"$": "USD", "€": "EUR", "£": "GBP"}.get(symbol, symbol)`. -/
def symToIso (g : Chars) : Chars :=
  if g = ['$'] then "USD".data
  else if g = ['€'] then "EUR".data
  else if g = ['£'] then "GBP".data
  else g

/-- The currency extraction of process_image: the first CURRENCY_REGEX match,
mapped through the symbol dictionary; `None` when there is no match. -/
def currencyOf (t : Chars) : Option Chars :=
  (scanFirst matchCurrencyAt t).map symToIso

/-- Exactly `n` digits (`\d{n}`): the consumed digits and the remainder. -/
def exactDigits : Nat → Chars → Option (Chars × Chars)
  | 0, s => some ([], s)
  | _ + 1, [] => none
  | n + 1, c :: cs =>
      if c.isDigit then
        match exactDigits n cs with
        | some (d, r) => some (c :: d, r)
        | none => none
      else none

/-- The slash-or-hyphen separator class of DATE_REGEX. -/
def sepDash (s : Chars) : Option (Char × Chars) :=
  match s with
  | c :: cs => if c = '-' ∨ c = '/' then some (c, cs) else none
  | [] => none

/-- First DATE_REGEX alternative: four digits, a slash-or-hyphen separator,
two digits, a separator, two digits; anchored;
returns the matched substring. -/
def matchAlt1 (s : Chars) : Option Chars := do
  let (a, r1) ← exactDigits 4 s
  let (s1, r2) ← sepDash r1
  let (b, r3) ← exactDigits 2 r2
  let (s2, r4) ← sepDash r3
  let (c, _) ← exactDigits 2 r4
  pure (a ++ s1 :: (b ++ s2 :: c))

/-- Second DATE_REGEX alternative: two digits, separator, two digits,
separator, four digits; anchored. -/
def matchAlt2 (s : Chars) : Option Chars := do
  let (a, r1) ← exactDigits 2 s
  let (s1, r2) ← sepDash r1
  let (b, r3) ← exactDigits 2 r2
  let (s2, r4) ← sepDash r3
  let (c, _) ← exactDigits 4 r4
  pure (a ++ s1 :: (b ++ s2 :: c))

/-- The part `\s+[A-Za-z]{3,9}\s+\d{4}` of the third DATE_REGEX alternative,
after the day digits `day`.  The letter run is maximal: because the run is
followed in the pattern by `\s+`, a shorter greedy retry would stop on a
letter and fail, so the maximal run (accepted when its length is 3..9) is
the only candidate. -/
def alt3Tail (day : Chars) (r : Chars) : Option Chars :=
  let w1 := r.takeWhile pySpace
  let r1 := r.dropWhile pySpace
  let letters := r1.takeWhile Char.isAlpha
  let r2 := r1.dropWhile Char.isAlpha
  let w2 := r2.takeWhile pySpace
  let r3 := r2.dropWhile pySpace
  if w1 ≠ [] ∧ 3 ≤ letters.length ∧ letters.length ≤ 9 ∧ w2 ≠ [] then
    match exactDigits 4 r3 with
    | some (y, _) => some (day ++ w1 ++ letters ++ w2 ++ y)
    | none => none
  else none

/-- Third DATE_REGEX alternative `\d{1,2}\s+[A-Za-z]{3,9}\s+\d{4}`, anchored.
`\d{1,2}` is greedy: two digits are tried first, and on failure of the tail
the one-digit prefix is retried (Python backtracking). -/
def matchAlt3 (s : Chars) : Option Chars :=
  match exactDigits 2 s with
  | some (d2, r) =>
      match alt3Tail d2 r with
      | some m => some m
      | none =>
          match exactDigits 1 s with
          | some (d1, r1) => alt3Tail d1 r1
          | none => none
  | none =>
      match exactDigits 1 s with
      | some (d1, r1) => alt3Tail d1 r1
      | none => none

/-- One attempt of DATE_REGEX anchored at the start of `s`: the three
alternatives in Python order. -/
def matchDateAt (s : Chars) : Option Chars :=
  match matchAlt1 s with
  | some m => some m
  | none =>
      match matchAlt2 s with
      | some m => some m
      | none => matchAlt3 s

def digitVal (c : Char) : Nat := c.toNat - 48

/-- strptime directive `%d`, compiled by Python to `3[01]|[12]\d|0[1-9]|[1-9]`.
In every format of extract_date the day is followed by a literal separator or
whitespace, never by a digit, so if the two-digit alternatives succeed
locally but the rest of the format fails, retrying the one-digit alternative
leaves a digit where the separator is required and fails as well; committing
to the two-digit reading therefore implements Python's backtracking exactly. -/
def pDayNum (s : Chars) : Option (Nat × Chars) :=
  match s with
  | [] => none
  | c1 :: rest1 =>
      let two : Option (Nat × Chars) :=
        match rest1 with
        | c2 :: rest2 =>
            if (c1 = '3' ∧ (c2 = '0' ∨ c2 = '1'))
                ∨ ((c1 = '1' ∨ c1 = '2') ∧ c2.isDigit)
                ∨ (c1 = '0' ∧ c2.isDigit ∧ c2 ≠ '0') then
              some (digitVal c1 * 10 + digitVal c2, rest2)
            else none
        | [] => none
      match two with
      | some x => some x
      | none =>
          if c1.isDigit ∧ c1 ≠ '0' then some (digitVal c1, rest1) else none

/-- strptime directive `%m`, compiled to `1[0-2]|0[1-9]|[1-9]` (same
commitment argument as for `%d`). -/
def pMonthNum (s : Chars) : Option (Nat × Chars) :=
  match s with
  | [] => none
  | c1 :: rest1 =>
      let two : Option (Nat × Chars) :=
        match rest1 with
        | c2 :: rest2 =>
            if (c1 = '1' ∧ (c2 = '0' ∨ c2 = '1' ∨ c2 = '2'))
                ∨ (c1 = '0' ∧ c2.isDigit ∧ c2 ≠ '0') then
              some (digitVal c1 * 10 + digitVal c2, rest2)
            else none
        | [] => none
      match two with
      | some x => some x
      | none => if c1.isDigit ∧ c1 ≠ '0' then some (digitVal c1, rest1) else none

/-- strptime directive `%Y`, compiled to `\d\d\d\d`. -/
def pYearNum (s : Chars) : Option (Nat × Chars) :=
  match exactDigits 4 s with
  | some (d, r) => some (digitsVal d, r)
  | none => none

/-- A literal character of a strptime format. -/
def pLit (ch : Char) (s : Chars) : Option Chars :=
  match s with
  | c :: cs => if c = ch then some cs else none
  | [] => none

/-- Whitespace in a strptime format, compiled to `\s+` (maximal run; the
next token is always a letter or digit, so maximality is forced). -/
def pWs (s : Chars) : Option Chars :=
  match s with
  | c :: _ => if pySpace c then some (s.dropWhile pySpace) else none
  | [] => none

/-- The C-locale full month names for `%B`, lower-cased, in the order of the
compiled alternation (sorted by length, longest first, stable).  No name is
a prefix of another, so first-alternative commitment is exact. -/
def fullMonthNames : List (Chars × Nat) :=
  [("september".data, 9), ("february".data, 2), ("november".data, 11),
   ("december".data, 12), ("january".data, 1), ("october".data, 10),
   ("august".data, 8), ("march".data, 3), ("april".data, 4),
   ("june".data, 6), ("july".data, 7), ("may".data, 5)]

/-- The C-locale abbreviated month names for `%b`, lower-cased. -/
def abbrMonthNames : List (Chars × Nat) :=
  [("jan".data, 1), ("feb".data, 2), ("mar".data, 3), ("apr".data, 4),
   ("may".data, 5), ("jun".data, 6), ("jul".data, 7), ("aug".data, 8),
   ("sep".data, 9), ("oct".data, 10), ("nov".data, 11), ("dec".data, 12)]

/-- Case-insensitive month-name alternation of `%B`/`%b`. -/
def pMonthName : List (Chars × Nat) → Chars → Option (Nat × Chars)
  | [], _ => none
  | (nm, v) :: rest, s =>
      match stripCI nm s with
      | some r => some (v, r)
      | none => pMonthName rest s

def isLeapYear (y : Nat) : Bool :=
  (y % 4 = 0 && ! (y % 100 = 0)) || y % 400 = 0

def daysInMonth (y m : Nat) : Nat :=
  if m = 2 then (if isLeapYear y then 29 else 28)
  else if m = 4 ∨ m = 6 ∨ m = 9 ∨ m = 11 then 30
  else 31

/-- `datetime.date(y, m, d)`: `none` models the ValueError on an impossible
calendar date (the directive regexes already bound m to 1..12 and d to
1..31; year 0 read by `%Y` is below datetime.MINYEAR). -/
def mkDate (y m d : Nat) : Option (Nat × Nat × Nat) :=
  if 1 ≤ y ∧ y ≤ 9999 ∧ 1 ≤ m ∧ m ≤ 12 ∧ 1 ≤ d ∧ d ≤ daysInMonth y m then
    some (y, m, d)
  else none

/-- `datetime.strptime(s, f"%Y{sep}%m{sep}%d")` with full-string consumption. -/
def strpYMD (sep : Char) (s : Chars) : Option (Nat × Nat × Nat) := do
  let (y, r1) ← pYearNum s
  let r2 ← pLit sep r1
  let (m, r3) ← pMonthNum r2
  let r4 ← pLit sep r3
  let (d, r5) ← pDayNum r4
  if r5 = [] then mkDate y m d else none

/-- `datetime.strptime(s, f"%d{sep}%m{sep}%Y")`. -/
def strpDMY (sep : Char) (s : Chars) : Option (Nat × Nat × Nat) := do
  let (d, r1) ← pDayNum s
  let r2 ← pLit sep r1
  let (m, r3) ← pMonthNum r2
  let r4 ← pLit sep r3
  let (y, r5) ← pYearNum r4
  if r5 = [] then mkDate y m d else none

/-- `datetime.strptime(s, "%d %B %Y")` resp. `"%d %b %Y"`. -/
def strpDNameY (names : List (Chars × Nat)) (s : Chars) : Option (Nat × Nat × Nat) := do
  let (d, r1) ← pDayNum s
  let r2 ← pWs r1
  let (m, r3) ← pMonthName names r2
  let r4 ← pWs r3
  let (y, r5) ← pYearNum r4
  if r5 = [] then mkDate y m d else none

/-- The `for fmt in [...]` loop of extract_date: the six formats in source
order, first successful parse wins. -/
def tryFormats (raw : Chars) : Option (Nat × Nat × Nat) :=
  match strpYMD '-' raw with
  | some d => some d
  | none =>
  match strpYMD '/' raw with
  | some d => some d
  | none =>
  match strpDMY '-' raw with
  | some d => some d
  | none =>
  match strpDMY '/' raw with
  | some d => some d
  | none =>
  match strpDNameY fullMonthNames raw with
  | some d => some d
  | none => strpDNameY abbrMonthNames raw

/-- Zero-padded decimal rendering, as in `date.isoformat()`. -/
def padNum (w n : Nat) : Chars :=
  let ds := Nat.toDigits 10 n
  List.replicate (w - ds.length) '0' ++ ds

/-- `date(y, m, d).isoformat()`. -/
def isoDate : Nat × Nat × Nat → Chars
  | (y, m, d) => padNum 4 y ++ '-' :: (padNum 2 m ++ '-' :: padNum 2 d)

/-- `extract_date` of ocr.py. -/
def extract_date (t : Chars) : Option Chars :=
  match scanFirst matchDateAt t with
  | some raw =>
      match tryFormats raw with
      | some ymd => some (isoDate ymd)
      | none => some raw
  | none => none

/-- The dictionary produced by `process_image`, as consumed by the record
assembly in main.py's scan/upload handlers.  `id` and `raw_text` are always
present strings there (a fresh uuid4 and the OCR text). -/
structure Parsed where
  id : String
  date : Option String
  vendor : Option String
  total_amount : Option ℚ
  tax_amount : Option ℚ
  currency : Option String
  payment_method : Option String
  category : Option String
  notes : Option String
  raw_text : String

/-- The `record` dictionary inserted by the scan/upload handlers of main.py. -/
structure ReceiptRecord where
  id : String
  date : String
  vendor : String
  total_amount : ℚ
  tax_amount : ℚ
  currency : String
  payment_method : String
  category : String
  notes : String
  image_path : String
  raw_text : String
  created_at : String
  updated_at : String

/-- Python `x or d` for an optional string (`None` and `""` are falsy). -/
def pyOrStr (o : Option String) (d : String) : String :=
  match o with
  | some s => if s = "" then d else s
  | none => d

/-- Python `x or d` for an optional float (`None` and `0.0` are falsy). -/
def pyOrQ (o : Option ℚ) (d : ℚ) : ℚ :=
  match o with
  | some v => if v = 0 then d else v
  | none => d

/-- The record construction shared verbatim by the scan and upload handlers
of main.py.  `freshId` models `str(uuid.uuid4())`, `today` models
`datetime.now().date().isoformat()`, `now` models `timestamp_now()`, and
`relPath` models `os.path.relpath(path, start=".")`. -/
def assemble (parsed : Parsed) (freshId today now relPath : String) : ReceiptRecord :=
  { id := pyOrStr (some parsed.id) freshId
    date := pyOrStr parsed.date today
    vendor := pyOrStr parsed.vendor "Unknown"
    total_amount := pyOrQ parsed.total_amount 0
    tax_amount := pyOrQ parsed.tax_amount 0
    currency := pyOrStr parsed.currency "USD"
    payment_method := pyOrStr parsed.payment_method "Unknown"
    category := pyOrStr parsed.category "Uncategorized"
    notes := pyOrStr parsed.notes ""
    image_path := relPath
    raw_text := pyOrStr (some parsed.raw_text) ""
    created_at := now
    updated_at := now }

/-- Abstract raster image. -/
structure PImage where
  pix : List (List Nat)

/-- The decode outcomes of one image file: `cv2.imread` returns `None` on
failure (modelled `none`), and `PIL.Image.open` either yields the unmodified
image or raises `UnidentifiedImageError` for a file it cannot decode
(modelled `none`). -/
structure ImageFile where
  cv2Decode : Option PImage
  pilDecode : Option PImage

/-- `preprocess_image` of ocr.py.  The OpenCV grayscale/blur/threshold/deskew
chain runs only in the successfully-decoded branch and is irrelevant to the
decode-failure behaviour; it is abstracted as the parameter `norm`.
`Except.error ()` models an uncaught exception propagating to the caller. -/
def preprocess_image (norm : PImage → PImage) (f : ImageFile) : Except Unit PImage :=
  match f.cv2Decode with
  | none =>
      match f.pilDecode with
      | some img => Except.ok img
      | none => Except.error ()
  | some img => Except.ok (norm img)

/-- Last element of a list of parsed values, seeded with `acc`. -/
def lastOpt : List ℚ → Option ℚ → Option ℚ
  | [], acc => acc
  | v :: vs, _ => lastOpt vs (some v)

theorem lastParsedAux_filterMap (l : List Chars) :
    ∀ acc : Option ℚ, lastParsedAux acc l = lastOpt (l.filterMap parseMoney) acc := by
  induction l with
  | nil => intro acc; rfl
  | cons g gs ih =>
      intro acc
      cases hp : parseMoney g with
      | some v => simp [lastParsedAux, hp, List.filterMap_cons, lastOpt, ih]
      | none => simp [lastParsedAux, hp, List.filterMap_cons, ih]

theorem lastOpt_append (vs : List ℚ) (v : ℚ) :
    ∀ acc, lastOpt (vs ++ [v]) acc = some v := by
  induction vs with
  | nil => intro acc; rfl
  | cons x xs ih => intro acc; simpa [lastOpt] using ih (some x)

theorem foldl_max_mem (xs : List ℚ) : ∀ a : ℚ, xs.foldl max a = a ∨ xs.foldl max a ∈ xs := by
  induction xs with
  | nil => intro a; left; rfl
  | cons x xs ih =>
      intro a
      rcases ih (max a x) with h | h
      · rw [List.foldl_cons, h]
        rcases max_choice a x with h2 | h2
        · left; exact h2
        · right; rw [h2]; exact List.mem_cons_self x xs
      · right; exact List.mem_cons_of_mem x h

theorem le_foldl_max (xs : List ℚ) : ∀ a : ℚ, a ≤ xs.foldl max a := by
  induction xs with
  | nil => intro a; exact le_refl a
  | cons x xs ih =>
      intro a
      exact le_trans (le_max_left a x) (ih (max a x))

theorem mem_le_foldl_max (xs : List ℚ) : ∀ (a u : ℚ), u ∈ xs → u ≤ xs.foldl max a := by
  induction xs with
  | nil => intro a u hu; cases hu
  | cons x xs ih =>
      intro a u hu
      rcases List.mem_cons.mp hu with h | h
      · rw [List.foldl_cons, h]
        exact le_trans (le_max_right a x) (le_foldl_max xs (max a x))
      · exact ih (max a x) u h

theorem scanFirst_eq_none_iff {α : Type} (f : Chars → Option α) (h0 : f [] = none) :
    ∀ s : Chars, scanFirst f s = none ↔ ∀ k, f (s.drop k) = none := by
  intro s
  induction s with
  | nil =>
      constructor
      · intro _ k; simpa using h0
      · intro _; rfl
  | cons c cs ih =>
      cases hf : f (c :: cs) with
      | some a =>
          constructor
          · intro h; rw [scanFirst, hf] at h; cases h
          · intro h; have := h 0; rw [List.drop_zero] at this; rw [hf] at this; cases this
      | none =>
          constructor
          · intro h k
            rw [scanFirst, hf] at h
            cases k with
            | zero => simpa using hf
            | succ k => simpa using (ih.mp h) k
          · intro h
            rw [scanFirst, hf]
            exact ih.mpr (fun k => by simpa using h (k + 1))

theorem scanFirst_eq_some_iff {α : Type} (f : Chars → Option α) (h0 : f [] = none) :
    ∀ (s : Chars) (a : α),
      scanFirst f s = some a ↔
        ∃ k, f (s.drop k) = some a ∧ ∀ j, j < k → f (s.drop j) = none := by
  intro s
  induction s with
  | nil =>
      intro a
      constructor
      · intro h; cases h
      · rintro ⟨k, hk, -⟩
        rw [List.drop_nil] at hk
        rw [h0] at hk
        cases hk
  | cons c cs ih =>
      intro a
      cases hf : f (c :: cs) with
      | some b =>
          rw [scanFirst, hf]
          constructor
          · intro h
            refine ⟨0, ?_, ?_⟩
            · rw [List.drop_zero, hf]; exact h
            · intro j hj; cases hj
          · rintro ⟨k, hk, hlt⟩
            cases k with
            | zero =>
                rw [List.drop_zero, hf] at hk
                exact hk
            | succ k =>
                have := hlt 0 (Nat.succ_pos k)
                rw [List.drop_zero, hf] at this
                cases this
      | none =>
          rw [scanFirst, hf]
          rw [ih a]
          constructor
          · rintro ⟨k, hk, hlt⟩
            refine ⟨k + 1, by simpa using hk, ?_⟩
            intro j hj
            cases j with
            | zero => simpa using hf
            | succ j => simpa using hlt j (Nat.lt_of_succ_lt_succ hj)
          · rintro ⟨k, hk, hlt⟩
            cases k with
            | zero =>
                rw [List.drop_zero, hf] at hk
                cases hk
            | succ k =>
                refine ⟨k, by simpa using hk, ?_⟩
                intro j hj
                simpa using hlt (j + 1) (Nat.succ_lt_succ hj)

theorem vendorLoop_eq_find (ls : List Chars) :
    vendorLoop ls = (ls.find? vendorQual).map stripChars := by
  induction ls with
  | nil => rfl
  | cons l ls ih =>
      cases hq : vendorQual l with
      | true => simp [vendorLoop, hq, List.find?, ih]
      | false => simp [vendorLoop, hq, List.find?, ih]

theorem takeWhile_eq_of_all (p : Char → Bool) :
    ∀ (ds : Chars), (∀ c ∈ ds, p c) → ∀ (c : Char), p c = false → ∀ (r : Chars),
      (ds ++ c :: r).takeWhile p = ds ∧ (ds ++ c :: r).dropWhile p = c :: r := by
  intro ds
  induction ds with
  | nil =>
      intro _ c hc r
      constructor
      · simp [List.takeWhile, hc]
      · simp [List.dropWhile, hc]
  | cons d ds ih =>
      intro hall c hc r
      have hd : p d = true := hall d (List.mem_cons_self d ds)
      have := ih (fun x hx => hall x (List.mem_cons_of_mem d hx)) c hc r
      constructor
      · simpa [List.takeWhile, hd] using this.1
      · simpa [List.dropWhile, hd] using this.2

theorem isDigit_ne_comma (a : Char) (ha : a.isDigit = true) : a ≠ ',' := by
  intro h
  rw [h] at ha
  exact absurd ha (by decide)

theorem matchNumAt_parses (s g rest : Chars) (h : matchNumAt s = some (g, rest)) :
    (parseMoney g).isSome := by
  simp only [matchNumAt] at h
  split at h
  · next c d1 d2 r2 hd =>
      split at h
      · next hcond =>
          obtain ⟨hds, hc, h1, h2⟩ := hcond
          have hpair := Option.some.inj h
          rw [Prod.mk.injEq] at hpair
          obtain ⟨hg, -⟩ := hpair
          have hall : ∀ a ∈ s.takeWhile Char.isDigit, a.isDigit = true :=
            fun a ha => List.mem_takeWhile_imp ha
          have hstrip : stripCommas g = g := by
            rw [stripCommas, List.filter_eq_self]
            intro a hamem
            rw [← hg] at hamem
            rcases List.mem_append.mp hamem with hmem | hmem
            · simpa using isDigit_ne_comma a (hall a hmem)
            · rcases List.mem_cons.mp hmem with rfl | hmem
              · simp [hc]
              · rcases List.mem_cons.mp hmem with rfl | hmem
                · simpa using isDigit_ne_comma a h1
                · rcases List.mem_cons.mp hmem with rfl | hmem
                  · simpa using isDigit_ne_comma a h2
                  · cases hmem
          have htake := takeWhile_eq_of_all Char.isDigit (s.takeWhile Char.isDigit)
            hall c (by rw [hc]; decide) (d1 :: d2 :: [])
          rw [parseMoney, hstrip, ← hg, pyFloat]
          rw [htake.1, htake.2]
          simp [hc, h1, h2, hds]
      · next => cases h
  · next => cases h

theorem scanNums_parses : ∀ (fuel : Nat) (s g : Chars),
    g ∈ scanNums fuel s → (parseMoney g).isSome := by
  intro fuel
  induction fuel with
  | zero => intro s g hg; cases hg
  | succ n ih =>
      intro s g hg
      cases s with
      | nil => cases hg
      | cons c cs =>
          rw [scanNums] at hg
          cases hm : matchNumAt (c :: cs) with
          | some p =>
              obtain ⟨g1, rest⟩ := p
              rw [hm] at hg
              rcases List.mem_cons.mp hg with rfl | hg
              · exact matchNumAt_parses (c :: cs) g rest hm
              · exact ih rest g hg
          | none =>
              rw [hm] at hg
              exact ih cs g hg

/-- Every number of the total fallback parses: the float call inside the list
comprehension of extract_amounts never raises. -/
theorem fallback_parses (s g : Chars) (h : g ∈ fallbackNumbers s) :
    (parseMoney g).isSome :=
  scanNums_parses s.length s g h

theorem amounts_fst (s : Chars) :
    (extract_amounts s).1 =
      match lastParsedAux none (totalMatches s) with
      | some v => some v
      | none =>
          match fallbackValues s with
          | [] => none
          | x :: xs => some (xs.foldl max x) := rfl

theorem amounts_snd (s : Chars) :
    (extract_amounts s).2 = lastParsedAux none (taxMatches s) := rfl

/-- Whether a captured group parses: the success condition of the
`try: ... float(...) except ValueError` pattern. -/
def parseOk (g : Chars) : Bool := (parseMoney g).isSome

theorem find_first_append {α : Type} (p : α → Bool) :
    ∀ l1 l2 : List α, (l1 ++ l2).find? p =
      match l1.find? p with
      | some a => some a
      | none => l2.find? p := by
  intro l1 l2
  induction l1 with
  | nil => rfl
  | cons a l1 ih =>
      cases ha : p a with
      | true => simp [List.find?, ha]
      | false => simp [List.find?, ha, ih]

theorem lastParsedAux_find (l : List Chars) : ∀ acc,
    lastParsedAux acc l =
      match l.reverse.find? parseOk with
      | some g => parseMoney g
      | none => acc := by
  induction l with
  | nil => intro acc; rfl
  | cons g gs ih =>
      intro acc
      rw [List.reverse_cons, find_first_append]
      cases hp : parseMoney g with
      | some v =>
          have hok : parseOk g = true := by rw [parseOk, hp]; rfl
          simp only [lastParsedAux, hp]
          rw [ih (some v)]
          cases gs.reverse.find? parseOk with
          | some g2 => rfl
          | none => simp [List.find?, hok, hp]
      | none =>
          have hok : parseOk g = false := by rw [parseOk, hp]; rfl
          simp only [lastParsedAux, hp]
          rw [ih acc]
          cases gs.reverse.find? parseOk with
          | some g2 => rfl
          | none => simp [List.find?, hok]

theorem amounts_fst_labeled (t g : Chars)
    (h : (totalMatches t).reverse.find? parseOk = some g) :
    (extract_amounts t).1 = parseMoney g := by
  have hok : parseOk g = true := List.find?_some h
  rw [parseOk] at hok
  obtain ⟨v, hv⟩ := Option.isSome_iff_exists.mp hok
  have h1 : lastParsedAux none (totalMatches t) = parseMoney g := by
    rw [lastParsedAux_find (totalMatches t) none, h]
  rw [amounts_fst, h1, hv]

/-- Value of a labelled capture of the form digits, dot, digits. -/
theorem parseMoney_eval (ip fp : Chars)
    (hip : ∀ c ∈ ip, c.isDigit = true) (hfp : ∀ c ∈ fp, c.isDigit = true)
    (hne : ip ≠ []) :
    parseMoney (ip ++ '.' :: fp)
      = some ((digitsVal ip : ℚ) + (digitsVal fp : ℚ) / (10 ^ fp.length : ℚ)) := by
  have hstrip : stripCommas (ip ++ '.' :: fp) = ip ++ '.' :: fp := by
    rw [stripCommas, List.filter_eq_self]
    intro a ha
    rcases List.mem_append.mp ha with hm | hm
    · simpa using isDigit_ne_comma a (hip a hm)
    · rcases List.mem_cons.mp hm with rfl | hm
      · decide
      · simpa using isDigit_ne_comma a (hfp a hm)
  have htake := takeWhile_eq_of_all Char.isDigit ip hip '.' (by decide) fp
  rw [parseMoney, hstrip, pyFloat, htake.1, htake.2]
  simp [hne, List.all_eq_true.mpr hfp]

/-- Value of a labelled capture consisting of digits only. -/
theorem parseMoney_int (ip : Chars)
    (hip : ∀ c ∈ ip, c.isDigit = true) (hne : ip ≠ []) :
    parseMoney ip = some ((digitsVal ip : ℚ)) := by
  have hstrip : stripCommas ip = ip := by
    rw [stripCommas, List.filter_eq_self]
    intro a ha
    simpa using isDigit_ne_comma a (hip a ha)
  have htake : ip.takeWhile Char.isDigit = ip := List.takeWhile_eq_self_iff.mpr hip
  have hdrop : ip.dropWhile Char.isDigit = [] := List.dropWhile_eq_nil_iff.mpr hip
  rw [parseMoney, hstrip, pyFloat, htake, hdrop]
  simp [hne]

/-- The number shape named by claim C2: digits with optional comma thousands
separators followed by a dot and a two-digit fraction (written from the
claim wording, for comparison with what the code accepts). -/
def decimalShapeB (g : Chars) : Bool :=
  match g.reverse with
  | d2 :: d1 :: c :: revIp =>
      (c = '.') && d2.isDigit && d1.isDigit &&
      (match revIp.reverse with
       | [] => false
       | c0 :: ip => c0.isDigit && ip.all (fun x => x.isDigit || x = ','))
  | _ => false

/-- Claim C2, counterexample.  In `"Total: 25.50 total 999"` the only labeled
match whose number has the claimed decimal shape is `25.50`, yet
extract_amounts returns 999 and not 25.50: the code keeps the last labeled
match whose captured number merely parses as a float, and a plain integer
such as `999` parses, so restricting "last such match" to shape-conforming
numbers is refuted. -/
theorem total_last_parsed_cex :
    (extract_amounts ("Total: 25.50 total 999".data)).1 = some (999 : ℚ)
    ∧ (totalMatches ("Total: 25.50 total 999".data)).filter decimalShapeB
        = ["25.50".data]
    ∧ parseMoney ("25.50".data) = some (51 / 2 : ℚ)
    ∧ (999 : ℚ) ≠ 51 / 2 := by
  refine ⟨?_, by decide, ?_, by norm_num⟩
  · have h := amounts_fst_labeled ("Total: 25.50 total 999".data) ("999".data) (by decide)
    rw [h, parseMoney_int "999".data (by decide) (by decide)]
    norm_num [show digitsVal "999".data = 999 from by decide]
  · have he : parseMoney ("25.50".data)
        = some ((digitsVal "25".data : ℚ)
            + (digitsVal "50".data : ℚ) / (10 ^ ("50".data).length : ℚ)) :=
      parseMoney_eval "25".data "50".data (by decide) (by decide) (by decide)
    rw [he]
    norm_num [show digitsVal "25".data = 25 from by decide,
      show digitsVal "50".data = 50 from by decide,
      show ("50".data).length = 2 from by decide]

/-- Claim C2 (amended): whenever the total-label regex yields at least one
match whose captured number parses as a float after comma removal,
extract_amounts returns as total_amount the value of the last such parseable
labeled match in document order (`find?` on the reversed match list);
captured numbers without a two-decimal fraction, e.g. plain integers, also
count, and a parseable labeled match takes precedence over the
numeric-maximum fallback, which is not consulted. -/
theorem total_last_parsed (t g : Chars)
    (h : (totalMatches t).reverse.find? parseOk = some g) :
    (extract_amounts t).1 = parseMoney g :=
  amounts_fst_labeled t g h

/-- Witness for `total_last_parsed` on the spec's own example text: the last
labeled match `25.50` wins over the earlier `10.00`. -/
theorem total_last_parsed_w :
    (extract_amounts ("Subtotal: 10.00 other Total: 25.50".data)).1
      = some (51 / 2 : ℚ) := by
  rw [total_last_parsed ("Subtotal: 10.00 other Total: 25.50".data) ("25.50".data)
    (by decide)]
  have he : parseMoney ("25.50".data)
      = some ((digitsVal "25".data : ℚ)
          + (digitsVal "50".data : ℚ) / (10 ^ ("50".data).length : ℚ)) :=
    parseMoney_eval "25".data "50".data (by decide) (by decide) (by decide)
  rw [he]
  norm_num [show digitsVal "25".data = 25 from by decide,
    show digitsVal "50".data = 50 from by decide,
    show ("50".data).length = 2 from by decide]

/-- Claim C3: with no labeled total match, total_amount is the maximum of the
numbers found by scanning the text for the shape digits-dot-two-digits, and
`none` when that scan finds nothing either. -/
theorem total_fallback_max (t : Chars) (h : totalMatches t = []) :
    (fallbackNumbers t = [] → (extract_amounts t).1 = none)
    ∧ ∀ g gs, fallbackNumbers t = g :: gs →
        ∃ v, (extract_amounts t).1 = some v ∧ v ∈ fallbackValues t
          ∧ ∀ u ∈ fallbackValues t, u ≤ v := by
  have h0 : lastParsedAux none (totalMatches t) = none := by rw [h]; rfl
  constructor
  · intro hv
    have hv2 : fallbackValues t = [] := by rw [fallbackValues, hv]; rfl
    rw [amounts_fst, h0, hv2]
  · intro g gs hv
    have hv2 : fallbackValues t
        = (parseMoney g).getD 0 :: gs.map (fun x => (parseMoney x).getD 0) := by
      rw [fallbackValues, hv, List.map_cons]
    refine ⟨(gs.map (fun x => (parseMoney x).getD 0)).foldl max ((parseMoney g).getD 0),
      ?_, ?_, ?_⟩
    · rw [amounts_fst, h0, hv2]
    · rw [hv2]
      rcases foldl_max_mem (gs.map (fun x => (parseMoney x).getD 0))
          ((parseMoney g).getD 0) with h2 | h2
      · rw [h2]; exact List.mem_cons_self _ _
      · exact List.mem_cons_of_mem _ h2
    · intro u hu
      rw [hv2] at hu
      rcases List.mem_cons.mp hu with rfl | hu
      · exact le_foldl_max _ _
      · exact mem_le_foldl_max _ _ u hu

/-- Witness for `total_fallback_max` on the spec's own example text. -/
theorem total_fallback_max_w :
    ∃ v, (extract_amounts ("12.30 4.50 45.00".data)).1 = some v
      ∧ v ∈ fallbackValues ("12.30 4.50 45.00".data)
      ∧ ∀ u ∈ fallbackValues ("12.30 4.50 45.00".data), u ≤ v :=
  (total_fallback_max ("12.30 4.50 45.00".data) (by decide)).2
    ("12.30".data) ["4.50".data, "45.00".data] (by decide)

/-- Claim C6: the tax amount has no largest-unlabeled-number fallback — with
no tax/vat labeled match the tax_amount is `none`, no matter how many plain
decimal numbers the text contains. -/
theorem tax_no_fallback (t : Chars) (h : taxMatches t = []) :
    (extract_amounts t).2 = none := by
  rw [amounts_snd, h]
  rfl

/-- Witness for `tax_no_fallback`: a text full of plain decimals but with no
tax label still yields no tax amount. -/
theorem tax_no_fallback_w :
    (extract_amounts ("Lunch 12.30 and 4.50 and 45.00".data)).2 = none :=
  tax_no_fallback _ (by decide)

/-- Claim C4, counterexample.  On the single (all-numeric) line `"  123  "`
no line qualifies, and extract_vendor returns the first line stripped of its
surrounding whitespace, `"123"`, not the first line verbatim as the claim
states. -/
theorem vendor_lines_cex :
    extract_vendor [("  123  ".data)] = some ("123".data)
    ∧ ([("  123  ".data)].take 5).find? vendorQual = none
    ∧ ("123".data : Chars) ≠ "  123  ".data := by
  exact ⟨by decide, by decide, by decide⟩

/-- Claim C4 (amended): for a non-empty line list, extract_vendor returns the
first line among the first five whose trimmed length exceeds two characters
and which contains no digit, stripped of surrounding whitespace; if none
qualifies it returns the very first line stripped (even if numeric); it
returns `None` exactly when the list is empty. -/
theorem vendor_lines (lines : List Chars) :
    (extract_vendor lines = none ↔ lines = [])
    ∧ ∀ l0 ls, lines = l0 :: ls →
        extract_vendor lines
          = some (stripChars (((lines.take 5).find? vendorQual).getD l0)) := by
  cases lines with
  | nil =>
      refine ⟨⟨fun _ => rfl, fun _ => rfl⟩, ?_⟩
      intro l0 ls h
      cases h
  | cons c cs =>
      have hne : extract_vendor (c :: cs) ≠ none := by
        rw [extract_vendor]
        cases vendorLoop ((c :: cs).take 5) <;> simp
      constructor
      · constructor
        · intro hx; exact absurd hx hne
        · intro hx; exact absurd hx (by simp)
      · intro l0 ls h
        injection h with h1 h2
        subst h1
        cases hf : ((c :: cs).take 5).find? vendorQual with
        | some l =>
            rw [extract_vendor, vendorLoop_eq_find, hf]
            rfl
        | none =>
            rw [extract_vendor, vendorLoop_eq_find, hf]
            rfl

/-- Witness for `vendor_lines` on the spec's example: the first qualifying
line among the first five wins. -/
theorem vendor_lines_w :
    extract_vendor ["123 Main St".data, "Joes Diner".data, "Thank you".data]
      = some ("Joes Diner".data) := by
  rw [(vendor_lines ["123 Main St".data, "Joes Diner".data, "Thank you".data]).2
    ("123 Main St".data) ["Joes Diner".data, "Thank you".data] rfl]
  decide

/-- Claim C5: extract_date takes the leftmost DATE_REGEX match, tries the
fixed ordered format list on it and returns the first successful parse in
ISO form; an unparseable match is returned verbatim and no match yields
`None`.  Concrete instances: `"01/05/2024"` is normalized to `"2024-05-01"`
under the DD/MM/YYYY rule, and `"99-99-9999"` is returned verbatim. -/
theorem date_extraction :
    (∀ t : Chars, scanFirst matchDateAt t = none → extract_date t = none)
    ∧ (∀ t raw, scanFirst matchDateAt t = some raw →
        (extract_date t = some ((Option.map isoDate (tryFormats raw)).getD raw)
         ∧ ∃ k, matchDateAt (t.drop k) = some raw
              ∧ ∀ j, j < k → matchDateAt (t.drop j) = none))
    ∧ extract_date ("Date: 01/05/2024".data) = some ("2024-05-01".data)
    ∧ extract_date ("receipt 2024-05-01 x".data) = some ("2024-05-01".data)
    ∧ extract_date ("on 99-99-9999 x".data) = some ("99-99-9999".data)
    ∧ extract_date ("no date".data) = none := by
  refine ⟨?_, ?_, by decide, by decide, by decide, by decide⟩
  · intro t h
    rw [extract_date, h]
  · intro t raw h
    constructor
    · rw [extract_date, h]
      cases htf : tryFormats raw with
      | none => simp [htf]
      | some d => simp [htf]
    · exact (scanFirst_eq_some_iff matchDateAt (by decide) t raw).mp h

/-- Witness for `date_extraction`. -/
theorem date_extraction_w :
    extract_date ("receipt scan".data) = none
    ∧ extract_date ("Date: 01/05/2024".data)
        = some ((Option.map isoDate (tryFormats ("01/05/2024".data))).getD
            ("01/05/2024".data)) :=
  ⟨date_extraction.1 _ (by decide), (date_extraction.2.1 _ _ (by decide)).1⟩

/-- Claim C7: currency extraction returns the ISO mapping of the leftmost
occurrence of a currency symbol or literal code; symbols map to their ISO
code and codes pass through unchanged; no occurrence yields `None`. -/
theorem currency_first :
    (∀ t : Chars, currencyOf t = none ↔ ∀ k, matchCurrencyAt (t.drop k) = none)
    ∧ (∀ t g, scanFirst matchCurrencyAt t = some g →
        currencyOf t = some (symToIso g)
        ∧ ∃ k, matchCurrencyAt (t.drop k) = some g
             ∧ ∀ j, j < k → matchCurrencyAt (t.drop j) = none)
    ∧ currencyOf ("Total: £12.00".data) = some ("GBP".data)
    ∧ currencyOf ("price 5 USD here".data) = some ("USD".data)
    ∧ currencyOf ("no money here".data) = none := by
  refine ⟨?_, ?_, by decide, by decide, by decide⟩
  · intro t
    constructor
    · intro h
      cases hs : scanFirst matchCurrencyAt t with
      | none => exact (scanFirst_eq_none_iff matchCurrencyAt (by decide) t).mp hs
      | some g => rw [currencyOf, hs] at h; cases h
    · intro h
      rw [currencyOf, (scanFirst_eq_none_iff matchCurrencyAt (by decide) t).mpr h]
      rfl
  · intro t g h
    constructor
    · rw [currencyOf, h]
      rfl
    · exact (scanFirst_eq_some_iff matchCurrencyAt (by decide) t g).mp h

/-- Witness for `currency_first`. -/
theorem currency_first_w :
    currencyOf ("Total: £12.00".data) = some (symToIso ['£'])
    ∧ ∀ k, matchCurrencyAt (("zzz".data).drop k) = none :=
  ⟨(currency_first.2.1 _ ['£'] (by decide)).1, (currency_first.1 _).mp (by decide)⟩

/-- Claim C8: every heuristic is a total function of its own input (the
embedding is by construction a family of total Lean functions, so no
invocation can raise or diverge); a heuristic without evidence returns
`None`; and the result of each heuristic is unaffected by what the sibling
heuristics see — in particular the tax amount depends only on the tax-label
matches, so a malformed number inside the total heuristic cannot change it,
and conversely. -/
theorem heuristics_degrade (t u : Chars) (lines : List Chars) :
    ((totalMatches t = [] ∧ fallbackNumbers t = []) → (extract_amounts t).1 = none)
    ∧ (taxMatches t = [] → (extract_amounts t).2 = none)
    ∧ (scanFirst matchDateAt t = none → extract_date t = none)
    ∧ (lines = [] → extract_vendor lines = none)
    ∧ (scanFirst matchCurrencyAt t = none → currencyOf t = none)
    ∧ (taxMatches t = taxMatches u → (extract_amounts t).2 = (extract_amounts u).2)
    ∧ ((totalMatches t = totalMatches u ∧ fallbackNumbers t = fallbackNumbers u) →
        (extract_amounts t).1 = (extract_amounts u).1) := by
  refine ⟨?_, ?_, ?_, ?_, ?_, ?_, ?_⟩
  · rintro ⟨h1, h2⟩
    have h0 : lastParsedAux none (totalMatches t) = none := by rw [h1]; rfl
    have hv : fallbackValues t = [] := by rw [fallbackValues, h2]; rfl
    rw [amounts_fst, h0, hv]
  · intro h
    rw [amounts_snd, h]
    rfl
  · intro h
    rw [extract_date, h]
  · rintro rfl
    rfl
  · intro h
    rw [currencyOf, h]
    rfl
  · intro h
    rw [amounts_snd, amounts_snd, h]
  · rintro ⟨h1, h2⟩
    have hv : fallbackValues t = fallbackValues u := by
      rw [fallbackValues, fallbackValues, h2]
    rw [amounts_fst, amounts_fst, h1, hv]

/-- Witness for `heuristics_degrade`: on empty input every heuristic returns
`None`. -/
theorem heuristics_degrade_w :
    (extract_amounts ("".data)).1 = none
    ∧ (extract_amounts ("".data)).2 = none
    ∧ extract_date ("".data) = none
    ∧ extract_vendor ([] : List Chars) = none
    ∧ currencyOf ("".data) = none := by
  have h := heuristics_degrade ("".data) ("".data) []
  exact ⟨h.1 ⟨by decide, by decide⟩, h.2.1 (by decide), h.2.2.1 (by decide),
    h.2.2.2.1 rfl, h.2.2.2.2.1 (by decide)⟩

/-- Claim C9: the assembled record always has every field defined; fields the
extraction left `None` receive their documented defaults, and the record
carries the identifier, the image path, the raw text and the creation and
update timestamps. -/
theorem assemble_defaults (parsed : Parsed) (freshId today now relPath : String) :
    ((assemble parsed freshId today now relPath).id
        = if parsed.id = "" then freshId else parsed.id)
    ∧ (parsed.vendor = none →
        (assemble parsed freshId today now relPath).vendor = "Unknown")
    ∧ (parsed.currency = none →
        (assemble parsed freshId today now relPath).currency = "USD")
    ∧ (parsed.total_amount = none →
        (assemble parsed freshId today now relPath).total_amount = 0)
    ∧ (parsed.tax_amount = none →
        (assemble parsed freshId today now relPath).tax_amount = 0)
    ∧ (parsed.category = none →
        (assemble parsed freshId today now relPath).category = "Uncategorized")
    ∧ (parsed.payment_method = none →
        (assemble parsed freshId today now relPath).payment_method = "Unknown")
    ∧ (assemble parsed freshId today now relPath).image_path = relPath
    ∧ (assemble parsed freshId today now relPath).raw_text = parsed.raw_text
    ∧ (assemble parsed freshId today now relPath).created_at = now
    ∧ (assemble parsed freshId today now relPath).updated_at = now := by
  refine ⟨rfl, ?_, ?_, ?_, ?_, ?_, ?_, rfl, ?_, rfl, rfl⟩
  · intro h
    show pyOrStr parsed.vendor "Unknown" = "Unknown"
    rw [h, pyOrStr]
  · intro h
    show pyOrStr parsed.currency "USD" = "USD"
    rw [h, pyOrStr]
  · intro h
    show pyOrQ parsed.total_amount 0 = 0
    rw [h, pyOrQ]
  · intro h
    show pyOrQ parsed.tax_amount 0 = 0
    rw [h, pyOrQ]
  · intro h
    show pyOrStr parsed.category "Uncategorized" = "Uncategorized"
    rw [h, pyOrStr]
  · intro h
    show pyOrStr parsed.payment_method "Unknown" = "Unknown"
    rw [h, pyOrStr]
  · show pyOrStr (some parsed.raw_text) "" = parsed.raw_text
    by_cases h : parsed.raw_text = ""
    · rw [pyOrStr, if_pos h, h]
    · rw [pyOrStr, if_neg h]

/-- Witness for `assemble_defaults`: a parse in which every heuristic
returned `None` is assembled into a fully defaulted record. -/
theorem assemble_defaults_w :
    (assemble ⟨"pid-1", none, none, none, none, none, none, none, none, "OCR"⟩
        "fresh" "2026-10-12" "ts0" "images/x.jpg").vendor = "Unknown"
    ∧ (assemble ⟨"pid-1", none, none, none, none, none, none, none, none, "OCR"⟩
        "fresh" "2026-10-12" "ts0" "images/x.jpg").currency = "USD"
    ∧ (assemble ⟨"pid-1", none, none, none, none, none, none, none, none, "OCR"⟩
        "fresh" "2026-10-12" "ts0" "images/x.jpg").total_amount = 0
    ∧ (assemble ⟨"pid-1", none, none, none, none, none, none, none, none, "OCR"⟩
        "fresh" "2026-10-12" "ts0" "images/x.jpg").tax_amount = 0
    ∧ (assemble ⟨"pid-1", none, none, none, none, none, none, none, none, "OCR"⟩
        "fresh" "2026-10-12" "ts0" "images/x.jpg").category = "Uncategorized"
    ∧ (assemble ⟨"pid-1", none, none, none, none, none, none, none, none, "OCR"⟩
        "fresh" "2026-10-12" "ts0" "images/x.jpg").payment_method = "Unknown"
    ∧ (assemble ⟨"pid-1", none, none, none, none, none, none, none, none, "OCR"⟩
        "fresh" "2026-10-12" "ts0" "images/x.jpg").image_path = "images/x.jpg"
    ∧ (assemble ⟨"pid-1", none, none, none, none, none, none, none, none, "OCR"⟩
        "fresh" "2026-10-12" "ts0" "images/x.jpg").raw_text = "OCR"
    ∧ (assemble ⟨"pid-1", none, none, none, none, none, none, none, none, "OCR"⟩
        "fresh" "2026-10-12" "ts0" "images/x.jpg").created_at = "ts0"
    ∧ (assemble ⟨"pid-1", none, none, none, none, none, none, none, none, "OCR"⟩
        "fresh" "2026-10-12" "ts0" "images/x.jpg").id = "pid-1" := by
  have h := assemble_defaults
    ⟨"pid-1", none, none, none, none, none, none, none, none, "OCR"⟩
    "fresh" "2026-10-12" "ts0" "images/x.jpg"
  refine ⟨h.2.1 rfl, h.2.2.1 rfl, h.2.2.2.1 rfl, h.2.2.2.2.1 rfl,
    h.2.2.2.2.2.1 rfl, h.2.2.2.2.2.2.1 rfl, h.2.2.2.2.2.2.2.1,
    h.2.2.2.2.2.2.2.2.1, h.2.2.2.2.2.2.2.2.2.1, ?_⟩
  rw [h.1]
  decide

/-- Claim C10: when date extraction yields `None` (or an empty string), the
assembled record's date field is the current calendar date at assembly time
(`datetime.now().date().isoformat()`, the `today` argument). -/
theorem assemble_date_today (parsed : Parsed) (freshId today now relPath : String)
    (h : parsed.date = none ∨ parsed.date = some "") :
    (assemble parsed freshId today now relPath).date = today := by
  show pyOrStr parsed.date today = today
  rcases h with h | h
  · rw [h, pyOrStr]
  · rw [h, pyOrStr, if_pos rfl]

/-- Witness for `assemble_date_today`. -/
theorem assemble_date_today_w :
    (assemble ⟨"p", none, none, none, none, none, none, none, none, "r"⟩
      "f" "2026-10-12" "n" "path").date = "2026-10-12" :=
  assemble_date_today _ "f" "2026-10-12" "n" "path" (Or.inl rfl)

/-- Claim C1, counterexample.  A file that neither cv2 nor PIL can decode
makes preprocess_image raise (PIL's `Image.open` raises
`UnidentifiedImageError`), aborting the pipeline invocation instead of
degrading to some image content as the claim states. -/
theorem preprocess_decode_cex :
    preprocess_image (fun i => i) { cv2Decode := none, pilDecode := none }
      = Except.error () := rfl

/-- Claim C1 (amended): when cv2 fails to decode, preprocess_image returns
the image opened by PIL — the unmodified input — whenever PIL can decode the
file; when cv2 succeeds the normalization chain runs; but when neither
library can decode the file the exception propagates and the pipeline
invocation is aborted. -/
theorem preprocess_decode (norm : PImage → PImage) (f : ImageFile) :
    (∀ img, f.cv2Decode = some img → preprocess_image norm f = Except.ok (norm img))
    ∧ (∀ img, f.cv2Decode = none → f.pilDecode = some img →
        preprocess_image norm f = Except.ok img)
    ∧ (f.cv2Decode = none → f.pilDecode = none →
        preprocess_image norm f = Except.error ()) := by
  refine ⟨?_, ?_, ?_⟩
  · intro img h
    rw [preprocess_image, h]
  · intro img h1 h2
    rw [preprocess_image, h1, h2]
  · intro h1 h2
    rw [preprocess_image, h1, h2]

/-- Witness for `preprocess_decode`, exercising all three branches. -/
theorem preprocess_decode_w :
    preprocess_image (fun i => i) { cv2Decode := some ⟨[[1]]⟩, pilDecode := none }
      = Except.ok (⟨[[1]]⟩ : PImage)
    ∧ preprocess_image (fun i => i) { cv2Decode := none, pilDecode := some ⟨[[2]]⟩ }
      = Except.ok (⟨[[2]]⟩ : PImage)
    ∧ preprocess_image (fun i => i) { cv2Decode := none, pilDecode := none }
      = Except.error () := by
  refine ⟨?_, ?_, ?_⟩
  · exact (preprocess_decode (fun i => i) _).1 ⟨[[1]]⟩ rfl
  · exact (preprocess_decode (fun i => i) _).2.1 ⟨[[2]]⟩ rfl rfl
  · exact (preprocess_decode (fun i => i) _).2.2 rfl rfl
